import Mathlib

/-
Shallow embedding of the CSV utility in src/index.ts.

The program has two operations:
  * handleSearch: a one-shot substring search over all parsed records;
  * handleStream: an fs.watch-based tail of a CSV file, keeping a
    byte offset `lastSize` and a resolved `headers` array.

File contents are modelled as `List Char` (the files in every scenario are
ASCII text).  The csv-parse library (an external dependency; the spec, section 6,
delegates exact quoting rules to it) is modelled on unquoted content by its
documented default behaviour: records are separated by a newline, a final
record at end of input is emitted even without a trailing newline, fields are
separated by commas, and a record whose field count differs from the first
record of the same parser invocation raises an error after the earlier records
were already streamed out.
-/

namespace CsvUtil

/-- Fields of one logical record, as produced by the parsing library. -/
abbrev Rec := List (List Char)

/-- Split a character list at every occurrence of the separator; there is one
more part than separators, and parts do not contain the separator. -/
def splitOn (sep : Char) : List Char → List (List Char)
  | [] => [[]]
  | a :: t =>
    if a = sep then [] :: splitOn sep t
    else
      match splitOn sep t with
      | [] => [[a]]
      | p :: ps => (a :: p) :: ps

/-- Drop a trailing empty part: the text after a final record separator is not
itself a record (csv-parse emits no empty trailing record), while a nonempty
final part is emitted as a record at end of input. -/
def dropLastEmpty : List (List Char) → List (List Char)
  | [] => []
  | [l] => if l = [] then [] else [l]
  | l :: l' :: ls => l :: dropLastEmpty (l' :: ls)

/-- The logical record lines of a chunk of input, per csv-parse defaults. -/
def recordLines (s : List Char) : List (List Char) :=
  dropLastEmpty (splitOn '\n' s)

/-- Split one record line into fields at commas (model of csv-parse on
unquoted content). -/
def parseFields (l : List Char) : Rec :=
  splitOn ',' l

/-- Parse the record lines after the first, enforcing csv-parse's default
consistent-record-length check against the field count of the first record.
Returns the records streamed out before any error, and whether an error was
raised. -/
def parseRest (n : Nat) : List (List Char) → List Rec × Bool
  | [] => ([], false)
  | l :: ls =>
    let r := parseFields l
    if r.length = n then
      let p := parseRest n ls
      (r :: p.1, p.2)
    else ([], true)

/-- One invocation of csv-parse on a chunk: the streamed records in order and
an error flag (true when a later record's field count differs from the first
record's, csv-parse's default Invalid Record Length error). -/
def parseStream (s : List Char) : List Rec × Bool :=
  match recordLines s with
  | [] => ([], false)
  | l :: ls =>
    let r0 := parseFields l
    let p := parseRest r0.length ls
    (r0 :: p.1, p.2)

/-- The record csv-parse with to_line 1 yields on a file: the fields of the
first record line (used by the header block of handleStream). -/
def firstRecord (s : List Char) : Rec :=
  match recordLines s with
  | [] => []
  | l :: _ => parseFields l

/-- Mutable state of one handleStream session: `let lastSize = statSync(filePath).size`
and `const headers: string[] = []`. -/
structure WatchState where
  lastSize : Nat
  headers : List (List Char)
deriving DecidableEq

/-- The events fs.watch delivers to the callback; the callback only reacts to
change events. -/
inductive FsEvent
  | change
  | rename
deriving DecidableEq

/-- One item printed by the watcher callback: a one-row table headed by the
resolved header fields (styling dropped), or the positional
p.log.info(record.join) line used when no header is resolved. -/
inductive Emit
  | tableRow (head : List (List Char)) (r : Rec)
  | infoLine (r : Rec)
deriving DecidableEq

/-- An exception escaping the async watcher callback uncaught: statSync on a
deleted file, or a csv-parse error rejecting the awaited iteration. -/
inductive Crash
  | statThrow
  | parseThrow
deriving DecidableEq

/-- Result of one callback invocation: everything printed, the state left
behind, and whether an exception escaped. -/
structure StepResult where
  outs : List Emit
  state : WatchState
  crash : Option Crash
deriving DecidableEq

/-- How one record is printed: a table when `headers.length > 0`, otherwise
the positional info line. -/
def emitRecord (headers : List (List Char)) (r : Rec) : Emit :=
  if headers.length > 0 then .tableRow headers r else .infoLine r

/-- The growth branch of the callback: read the byte range
[lastSize, currentStats.size) (createReadStream with start and end), resolve
headers from line 1 of the whole file when `headers.length === 0 && lastSize === 0`,
print every parsed record of the chunk, and set `lastSize = currentStats.size`
only if the awaited parse finished without error. -/
def processGrowth (st : WatchState) (content : List Char) : StepResult :=
  let chunk := content.drop st.lastSize
  let headers' :=
    if st.headers.length = 0 ∧ st.lastSize = 0
    then st.headers ++ firstRecord content
    else st.headers
  let p := parseStream chunk
  let outs := p.1.map (emitRecord headers')
  if p.2 then ⟨outs, ⟨st.lastSize, headers'⟩, some .parseThrow⟩
  else ⟨outs, ⟨content.length, headers'⟩, none⟩

/-- One invocation of the fs.watch callback of handleStream.  `file` is the
file's content at processing time (none when the file has been deleted, in
which case statSync throws).  Only change events with
`currentStats.size > lastSize` do any work. -/
def watchStep (st : WatchState) (ev : FsEvent) (file : Option (List Char)) : StepResult :=
  match ev, file with
  | .rename, _ => ⟨[], st, none⟩
  | .change, none => ⟨[], st, some .statThrow⟩
  | .change, some content =>
    if st.lastSize < content.length then processGrowth st content
    else ⟨[], st, none⟩

/-- Session state right after `handleStream` starts watching a file whose
content is `c`: lastSize is the current size, headers empty. -/
def initState (c : List Char) : WatchState :=
  ⟨c.length, []⟩

/-- Accumulated result of a sequence of callback invocations. -/
structure RunResult where
  state : WatchState
  outs : List Emit
  crashes : List Crash
deriving DecidableEq

/-- Run the watcher callback over a list of events, each carrying the file
content observed while handling it. -/
def runWatch (st : WatchState) : List (FsEvent × Option (List Char)) → RunResult
  | [] => ⟨st, [], []⟩
  | (ev, f) :: rest =>
    let r := watchStep st ev f
    let rr := runWatch r.state rest
    ⟨rr.state, r.outs ++ rr.outs, r.crash.toList ++ rr.crashes⟩

/-- True for the positional (headerless) emission form. -/
def isPositional : Emit → Bool
  | .infoLine _ => true
  | .tableRow _ _ => false

/-- The record carried by an emission. -/
def emitRec : Emit → Rec
  | .tableRow _ r => r
  | .infoLine r => r

/-- Raw bytes belonging to a record excluding its terminator: field bytes plus
the comma separators between fields. -/
def recordRawBytes (r : Rec) : Nat :=
  (r.map List.length).sum + (r.length - 1)

/-- Raw non-terminator bytes of all emitted records of a step. -/
def emittedBytes (outs : List Emit) : Nat :=
  (outs.map (fun o => recordRawBytes (emitRec o))).sum

/-- Pointwise equality of file snapshots from byte position n on (same length,
same content at positions at or above n). -/
def contAgreeAbove (n : Nat) : Option (List Char) → Option (List Char) → Bool
  | none, none => true
  | some c₁, some c₂ => c₁.length == c₂.length && c₁.drop n == c₂.drop n
  | _, _ => false

/-- Equality test on fs events. -/
def eventEq : FsEvent → FsEvent → Bool
  | .change, .change => true
  | .rename, .rename => true
  | _, _ => false

/-- Two event sequences that agree except possibly in the bytes below
position n of the observed file contents. -/
def evsAgreeAbove (n : Nat) : List (FsEvent × Option (List Char)) → List (FsEvent × Option (List Char)) → Bool
  | [], [] => true
  | (e₁, f₁) :: r₁, (e₂, f₂) :: r₂ =>
    eventEq e₁ e₂ && contAgreeAbove n f₁ f₂ && evsAgreeAbove n r₁ r₂
  | _, _ => false

/-- Lowercasing applied by handleSearch to both the search term and each
field value (toLowerCase; the files in scope are ASCII). -/
def lowerStr (s : List Char) : List Char :=
  s.map Char.toLower

/-- Substring test modelling String.prototype.includes: does `hay` contain
`needle` as a contiguous substring? -/
def containsSub (needle : List Char) : List Char → Bool
  | [] => needle.isPrefixOf []
  | c :: t => needle.isPrefixOf (c :: t) || containsSub needle t

/-- One parsed row of the search path (csv-parse with columns true):
column-name and value pairs in column order. -/
abbrev SearchRow := List (List Char × List Char)

/-- Object.values of a row. -/
def rowValues (r : SearchRow) : List (List Char) :=
  r.map Prod.snd

/-- The membership test of handleSearch: some field value, lowercased,
includes the lowercased search term. -/
def matchesRow (term : List Char) (r : SearchRow) : Bool :=
  (rowValues r).any fun v => containsSub (lowerStr term) (lowerStr v)

/-- The rows handleSearch collects into `results`. -/
def searchResults (rows : List SearchRow) (term : List Char) : List SearchRow :=
  rows.filter (matchesRow term)

/-- What handleSearch renders: no table when `results.length === 0`, otherwise
a table headed by the keys of the first result with one row of values per
result. -/
def renderTable (rows : List SearchRow) (term : List Char) :
    Option (List (List Char) × List (List (List Char))) :=
  match searchResults rows term with
  | [] => none
  | r :: rs => some (r.map Prod.fst, (r :: rs).map rowValues)

/-- Header fields id and name, as resolved from the line id,name. -/
def idNameHeaders : List (List Char) :=
  [['i', 'd'], ['n', 'a', 'm', 'e']]

/-- File content id,name newline 1,Ann newline (14 bytes). -/
def hdrAnnContent : List Char :=
  "id,name\n1,Ann\n".toList

/-- Watcher state after the header and the 1,Ann row were consumed. -/
def c1St : WatchState :=
  ⟨14, idNameHeaders⟩

/-- The file after appending 2,Bo with no trailing newline (18 bytes). -/
def c1FileA : List Char :=
  "id,name\n1,Ann\n2,Bo".toList

/-- The file after the later append of b newline 3,Cy newline (25 bytes). -/
def c1FileB : List Char :=
  "id,name\n1,Ann\n2,Bob\n3,Cy\n".toList

/-- A session at offset 100 (the spec's shrink scenario). -/
def c2St : WatchState :=
  ⟨100, idNameHeaders⟩

/-- A 40-byte file snapshot, observed after truncation. -/
def c2Shrunk : List Char :=
  List.replicate 40 'x'

/-- The file regrown to 70 bytes. -/
def c2Regrown : List Char :=
  List.replicate 70 'x'

/-- Watcher state with the header consumed, 8 bytes in. -/
def c4St : WatchState :=
  ⟨8, idNameHeaders⟩

/-- A watching session 5 bytes into a headerless file. -/
def c5St : WatchState :=
  ⟨5, []⟩

/-- An 11-byte file present again after the deletion. -/
def c5Recreated : List Char :=
  "0123456789\n".toList

/-- File content whose second appended record has three fields while the
first has two: csv-parse's default consistency check rejects it. -/
def c6Content : List Char :=
  "id,name\n1,Ann\n2,Bob,X\n1,Y\n".toList

/-- Session state before the malformed append of c6Content arrives. -/
def c6St : WatchState :=
  ⟨14, idNameHeaders⟩

/-- A headerless session 6 bytes in. -/
def c7St : WatchState :=
  ⟨6, []⟩

/-- A 6-byte file whose size equals c7St.lastSize. -/
def c7Content : List Char :=
  List.replicate 6 'x'

/-- A file whose first line is a header row. -/
def c8Hdr : List Char :=
  "id,name\n".toList

/-- Pre-existing 3-byte content at watch start. -/
def preC : List Char :=
  "abc".toList

/-- One growth event appending 12,34 newline to the pre-existing content. -/
def c8Evs : List (FsEvent × Option (List Char)) :=
  [(FsEvent.change, some "abc12,34\n".toList)]

/-- A growth event whose snapshot differs from c9Evs₂ only in the 3
pre-existing bytes. -/
def c9Evs₁ : List (FsEvent × Option (List Char)) :=
  [(FsEvent.change, some "xyzde\n".toList)]

/-- A growth event agreeing with c9Evs₁ from byte 3 on. -/
def c9Evs₂ : List (FsEvent × Option (List Char)) :=
  [(FsEvent.change, some "abcde\n".toList)]

/-- A one-column row with value Ann. -/
def c10Row : SearchRow :=
  [(['n', 'a', 'm', 'e'], ['A', 'n', 'n'])]

/-- The search term An. -/
def c10Term : List Char :=
  ['A', 'n']

/-- Splitting always yields at least one part. -/
theorem splitOn_ne_nil (sep : Char) (s : List Char) : splitOn sep s ≠ [] := by
  induction s with
  | nil => simp [splitOn]
  | cons a t ih =>
    rw [splitOn]
    split
    · simp
    · split <;> simp

/-- The number of parts is the number of separators plus one. -/
theorem splitOn_length (sep : Char) (s : List Char) :
    (splitOn sep s).length = s.count sep + 1 := by
  induction s with
  | nil => simp [splitOn]
  | cons a t ih =>
    rw [splitOn]
    by_cases h : a = sep
    · simp [h, List.count_cons, ih]
    · rcases hs : splitOn sep t with _ | ⟨p, ps⟩
      · exact absurd hs (splitOn_ne_nil sep t)
      · rw [hs] at ih
        simp [h, List.count_cons, Ne.symm h] at ih ⊢
        omega

/-- Splitting loses no bytes: part lengths plus separators account for the
whole input. -/
theorem splitOn_sum (sep : Char) (s : List Char) :
    ((splitOn sep s).map List.length).sum + s.count sep = s.length := by
  induction s with
  | nil => simp [splitOn]
  | cons a t ih =>
    rw [splitOn]
    by_cases h : a = sep
    · simp only [h, if_true, List.map_cons, List.sum_cons, List.length_nil,
        List.count_cons, List.length_cons]
      simp
      omega
    · rcases hs : splitOn sep t with _ | ⟨p, ps⟩
      · exact absurd hs (splitOn_ne_nil sep t)
      · rw [hs] at ih
        simp [h, List.count_cons, Ne.symm h] at ih ⊢
        omega

/-- Dropping a trailing empty part does not change the byte total. -/
theorem dropLastEmpty_sum (ps : List (List Char)) :
    ((dropLastEmpty ps).map List.length).sum = (ps.map List.length).sum := by
  induction ps with
  | nil => rfl
  | cons l ls ih =>
    cases ls with
    | nil =>
      rw [dropLastEmpty]
      split <;> simp_all
    | cons l' ls' =>
      rw [dropLastEmpty]
      simp [ih]

/-- Record-line lengths plus newline terminators account for the whole
chunk. -/
theorem recordLines_sum (s : List Char) :
    ((recordLines s).map List.length).sum + s.count '\n' = s.length := by
  rw [recordLines, dropLastEmpty_sum]
  exact splitOn_sum '\n' s

/-- Field bytes plus comma separators of a parsed record line make up the
line exactly. -/
theorem parseFields_rawBytes (l : List Char) :
    recordRawBytes (parseFields l) = l.length := by
  rw [recordRawBytes, parseFields, splitOn_length]
  have h := splitOn_sum ',' l
  omega

/-- A clean parse of the remaining lines streams them all. -/
theorem parseRest_clean (n : Nat) (ls : List (List Char))
    (h : (parseRest n ls).2 = false) :
    (parseRest n ls).1 = ls.map parseFields := by
  induction ls with
  | nil => rfl
  | cons l ls ih =>
    rw [parseRest] at h ⊢
    by_cases hl : (parseFields l).length = n
    · simp only [hl, if_true] at h ⊢
      simp [ih h]
    · simp [hl] at h

/-- A clean parse of a chunk streams every record line of the chunk. -/
theorem parseStream_clean (s : List Char) (h : (parseStream s).2 = false) :
    (parseStream s).1 = (recordLines s).map parseFields := by
  rw [parseStream] at h ⊢
  rcases hr : recordLines s with _ | ⟨l, ls⟩
  · rfl
  · rw [hr] at h
    simp only [List.map_cons]
    show parseFields l :: (parseRest (parseFields l).length ls).1 = _
    rw [parseRest_clean _ _ h]

/-- Emission wraps a record without changing it. -/
theorem emitRec_emitRecord (hs : List (List Char)) (r : Rec) :
    emitRec (emitRecord hs r) = r := by
  rw [emitRecord]
  split <;> rfl

/-- Byte accounting is unchanged by wrapping records into emissions. -/
theorem emittedBytes_map (hs : List (List Char)) (recs : List Rec) :
    emittedBytes (recs.map (emitRecord hs)) = (recs.map recordRawBytes).sum := by
  simp [emittedBytes, List.map_map, Function.comp_def, emitRec_emitRecord]

/-- The growth branch leaves the offset in place (parse error) or moves it to
the current size. -/
theorem processGrowth_lastSize (st : WatchState) (content : List Char) :
    (processGrowth st content).state.lastSize = st.lastSize ∨
    (processGrowth st content).state.lastSize = content.length := by
  simp only [processGrowth]
  split
  · exact Or.inl rfl
  · exact Or.inr rfl

/-- The offset never decreases across a callback invocation. -/
theorem watchStep_mono (st : WatchState) (ev : FsEvent) (f : Option (List Char)) :
    st.lastSize ≤ (watchStep st ev f).state.lastSize := by
  cases ev with
  | rename => exact le_refl _
  | change =>
    cases f with
    | none => exact le_refl _
    | some content =>
      rw [watchStep]
      by_cases hg : st.lastSize < content.length
      · rw [if_pos hg]
        rcases processGrowth_lastSize st content with h | h <;> omega
      · rw [if_neg hg]

/-- Once the offset is positive, the header block never runs again. -/
theorem watchStep_headers_inv (st : WatchState) (ev : FsEvent)
    (f : Option (List Char)) (h : 0 < st.lastSize) :
    (watchStep st ev f).state.headers = st.headers := by
  cases ev with
  | rename => rfl
  | change =>
    cases f with
    | none => rfl
    | some content =>
      rw [watchStep]
      split
      · simp only [processGrowth]
        have hc : ¬(st.headers.length = 0 ∧ st.lastSize = 0) :=
          fun hab => absurd hab.2 (Nat.pos_iff_ne_zero.1 h)
        rw [if_neg hc]
        split <;> rfl
      · rfl

/-- A headerless session past offset 0 only prints positional lines. -/
theorem watchStep_outs_headerless (st : WatchState) (ev : FsEvent)
    (f : Option (List Char)) (h0 : st.headers = []) (h : 0 < st.lastSize) :
    (watchStep st ev f).outs.all isPositional = true := by
  cases ev with
  | rename => rfl
  | change =>
    cases f with
    | none => rfl
    | some content =>
      rw [watchStep]
      split
      · simp only [processGrowth]
        have hc : ¬(st.headers.length = 0 ∧ st.lastSize = 0) :=
          fun hab => absurd hab.2 (Nat.pos_iff_ne_zero.1 h)
        rw [if_neg hc]
        have houts : ∀ recs : List Rec,
            (recs.map (emitRecord st.headers)).all isPositional = true := by
          intro recs
          rw [List.all_eq_true]
          intro x hx
          rcases List.mem_map.1 hx with ⟨r, _, rfl⟩
          rw [h0, emitRecord]
          simp [isPositional]
        split
        · exact houts _
        · exact houts _
      · rfl

/-- A headerless session past offset 0 stays headerless over any run, and
everything it ever prints is positional. -/
theorem runWatch_headerless (evs : List (FsEvent × Option (List Char))) :
    ∀ st : WatchState, st.headers = [] → 0 < st.lastSize →
      (runWatch st evs).state.headers = [] ∧
      (runWatch st evs).outs.all isPositional = true := by
  induction evs with
  | nil =>
    intro st h0 hpos
    exact ⟨h0, rfl⟩
  | cons e rest ih =>
    intro st h0 hpos
    obtain ⟨ev, f⟩ := e
    simp only [runWatch]
    have hmono := watchStep_mono st ev f
    have hh := watchStep_headers_inv st ev f hpos
    have hout := watchStep_outs_headerless st ev f h0 hpos
    have hrec := ih (watchStep st ev f).state (by rw [hh]; exact h0)
      (Nat.lt_of_lt_of_le hpos hmono)
    refine ⟨hrec.1, ?_⟩
    rw [List.all_append, hout, hrec.2]
    rfl

/-- A nonempty chunk has at least one record line. -/
theorem recordLines_ne_nil (s : List Char) (hs : s ≠ []) :
    recordLines s ≠ [] := by
  cases s with
  | nil => exact absurd rfl hs
  | cons a t =>
    rw [recordLines, splitOn]
    by_cases h : a = '\n'
    · rw [if_pos h]
      rcases hsp : splitOn '\n' t with _ | ⟨p, ps⟩
      · exact absurd hsp (splitOn_ne_nil '\n' t)
      · rw [dropLastEmpty]
        simp
    · rw [if_neg h]
      rcases hsp : splitOn '\n' t with _ | ⟨p, ps⟩
      · exact absurd hsp (splitOn_ne_nil '\n' t)
      · cases ps with
        | nil =>
          rw [dropLastEmpty]
          simp
        | cons q qs =>
          rw [dropLastEmpty]
          simp

/-- The header block of a nonempty file always resolves at least one field. -/
theorem firstRecord_ne_nil (s : List Char) (hs : s ≠ []) :
    firstRecord s ≠ [] := by
  rw [firstRecord]
  rcases hr : recordLines s with _ | ⟨l, ls⟩
  · exact absurd hr (recordLines_ne_nil s hs)
  · exact splitOn_ne_nil ',' l

/-- Whenever a callback invocation changes the headers, the session was
headerless at offset 0, and the resolved headers are nonempty (so no later
invocation can change them again). -/
theorem watchStep_headers_change (st : WatchState) (ev : FsEvent)
    (f : Option (List Char))
    (h : (watchStep st ev f).state.headers ≠ st.headers) :
    (st.headers = [] ∧ st.lastSize = 0) ∧
      (watchStep st ev f).state.headers ≠ [] := by
  cases ev with
  | rename => exact absurd rfl h
  | change =>
    cases f with
    | none => exact absurd rfl h
    | some content =>
      rw [watchStep] at h ⊢
      by_cases hg : st.lastSize < content.length
      · rw [if_pos hg] at h ⊢
        simp only [processGrowth] at h ⊢
        by_cases hc : st.headers.length = 0 ∧ st.lastSize = 0
        · have hhd : st.headers = [] := List.length_eq_zero.1 hc.1
          have hcont : content ≠ [] := by
            intro hnil
            rw [hnil] at hg
            simp at hg
          have hne : st.headers ++ firstRecord content ≠ [] := by
            rw [hhd, List.nil_append]
            exact firstRecord_ne_nil content hcont
          rw [if_pos hc] at h ⊢
          constructor
          · exact ⟨hhd, hc.2⟩
          · split <;> exact hne
        · rw [if_neg hc] at h
          split at h <;> exact absurd rfl h
      · rw [if_neg hg] at h
        exact absurd rfl h

/-- A callback invocation cannot observe bytes below its offset: two
snapshots of equal size agreeing from position n on, with n at most the
offset, are processed identically. -/
theorem watchStep_eq_of_agree (n : Nat) (st : WatchState) (ev : FsEvent)
    (f₁ f₂ : Option (List Char)) (hn : n ≤ st.lastSize)
    (hf : contAgreeAbove n f₁ f₂ = true) :
    watchStep st ev f₁ = watchStep st ev f₂ := by
  cases f₁ with
  | none =>
    cases f₂ with
    | none => rfl
    | some c₂ => exact absurd hf (by simp [contAgreeAbove])
  | some c₁ =>
    cases f₂ with
    | none => exact absurd hf (by simp [contAgreeAbove])
    | some c₂ =>
      simp only [contAgreeAbove, Bool.and_eq_true, beq_iff_eq] at hf
      obtain ⟨hlen, hdrop⟩ := hf
      cases ev with
      | rename => rfl
      | change =>
        rcases Nat.eq_zero_or_pos st.lastSize with h0 | hpos
        · have hn0 : n = 0 := by omega
          have hceq : c₁ = c₂ := by
            rw [hn0] at hdrop
            simpa using hdrop
          rw [hceq]
        · have hchunk : c₁.drop st.lastSize = c₂.drop st.lastSize := by
            have h₁ : c₁.drop st.lastSize = (c₁.drop n).drop (st.lastSize - n) := by
              rw [List.drop_drop]
              congr 1
              omega
            have h₂ : c₂.drop st.lastSize = (c₂.drop n).drop (st.lastSize - n) := by
              rw [List.drop_drop]
              congr 1
              omega
            rw [h₁, h₂, hdrop]
          simp only [watchStep]
          rw [hlen]
          by_cases hg : st.lastSize < c₂.length
          · rw [if_pos hg]
            rw [if_pos hg]
            simp only [processGrowth]
            have hc : ¬(st.headers.length = 0 ∧ st.lastSize = 0) :=
              fun hab => absurd hab.2 (Nat.pos_iff_ne_zero.1 hpos)
            rw [if_neg hc, if_neg hc, hchunk, hlen]
          · rw [if_neg hg]
            rw [if_neg hg]

/-- Runs over event sequences that differ only below byte position n are
indistinguishable when the session offset starts at or above n. -/
theorem runWatch_eq_of_agree (n : Nat) :
    ∀ (evs₁ evs₂ : List (FsEvent × Option (List Char))) (st : WatchState),
      n ≤ st.lastSize → evsAgreeAbove n evs₁ evs₂ = true →
      runWatch st evs₁ = runWatch st evs₂ := by
  intro evs₁
  induction evs₁ with
  | nil =>
    intro evs₂ st hn hagree
    cases evs₂ with
    | nil => rfl
    | cons e r =>
      obtain ⟨ev₂, f₂⟩ := e
      exact absurd hagree (by simp [evsAgreeAbove])
  | cons e₁ r₁ ih =>
    intro evs₂ st hn hagree
    obtain ⟨ev₁, f₁⟩ := e₁
    cases evs₂ with
    | nil => exact absurd hagree (by simp [evsAgreeAbove])
    | cons e₂ r₂ =>
      obtain ⟨ev₂, f₂⟩ := e₂
      simp only [evsAgreeAbove, Bool.and_eq_true] at hagree
      obtain ⟨⟨hev, hf⟩, hrest⟩ := hagree
      have hevEq : ev₁ = ev₂ := by
        cases ev₁ <;> cases ev₂ <;> first | rfl | simp [eventEq] at hev
      subst hevEq
      have hstep := watchStep_eq_of_agree n st ev₁ f₁ f₂ hn hf
      simp only [runWatch]
      rw [hstep, ih r₂ (watchStep st ev₁ f₂).state
        (le_trans hn (watchStep_mono st ev₁ f₂)) hrest]

/-- The substring test of handleSearch holds exactly when the needle occurs
contiguously inside the haystack. -/
theorem containsSub_iff (needle hay : List Char) :
    containsSub needle hay = true ↔ ∃ p q, p ++ needle ++ q = hay := by
  induction hay with
  | nil =>
    rw [containsSub, List.isPrefixOf_iff_prefix]
    constructor
    · intro h
      exact ⟨[], [], by simp [List.prefix_nil.1 h]⟩
    · rintro ⟨p, q, hpq⟩
      rcases List.append_eq_nil.1 hpq with ⟨hpn, hq⟩
      rcases List.append_eq_nil.1 hpn with ⟨hp, hn⟩
      rw [hn]
  | cons c t ih =>
    rw [containsSub, Bool.or_eq_true, ih, List.isPrefixOf_iff_prefix]
    constructor
    · rintro (hpre | ⟨p, q, rfl⟩)
      · obtain ⟨q, hq⟩ := hpre
        exact ⟨[], q, by simpa using hq⟩
      · exact ⟨c :: p, q, rfl⟩
    · rintro ⟨p, q, hpq⟩
      cases p with
      | nil => exact Or.inl ⟨q, by simpa using hpq⟩
      | cons a p' =>
        simp only [List.cons_append] at hpq
        injection hpq with h1 h2
        exact Or.inr ⟨p', q, h2⟩

/-- Claim C1: the code keeps no trailing fragment.  Evaluating the watcher at
the spec's scenario: appending 2,Bo without a newline makes the callback emit
the record at once and advance lastSize to 18 (the fragment is consumed, not
held), and the later append of b, newline, 3,Cy, newline is parsed as a fresh
chunk whose first record has one field, so the record 3,Cy raises csv-parse's
record-length error uncaught and is never emitted, contrary to the claimed
zero-then-Bob-and-Cy behaviour. -/
theorem c1_fragment_not_held :
    (watchStep c1St .change (some c1FileA)).outs =
        [Emit.tableRow idNameHeaders [['2'], ['B', 'o']]] ∧
    (watchStep c1St .change (some c1FileA)).state.lastSize = 18 ∧
    (watchStep ⟨18, idNameHeaders⟩ .change (some c1FileB)).outs =
        [Emit.tableRow idNameHeaders [['b']]] ∧
    (watchStep ⟨18, idNameHeaders⟩ .change (some c1FileB)).crash =
        some Crash.parseThrow ∧
    (watchStep ⟨18, idNameHeaders⟩ .change (some c1FileB)).state.lastSize = 18 := by
  decide

/-- Claim C2 counterexample: at offset 100, observing the file shrunk to 40
bytes resets nothing: lastSize stays 100 (not 0), headers are kept, and the
subsequent growth to 70 bytes is below the stale offset, so bytes 0 to 70 are
never consumed and no header is re-resolved. -/
theorem c2_counterexample :
    (watchStep c2St .change (some c2Shrunk)).state.lastSize = 100 ∧
    (watchStep c2St .change (some c2Shrunk)).state.headers = idNameHeaders ∧
    (watchStep c2St .change (some c2Shrunk)).outs = [] ∧
    (watchStep (watchStep c2St .change (some c2Shrunk)).state .change
        (some c2Regrown)).outs = [] ∧
    (watchStep (watchStep c2St .change (some c2Shrunk)).state .change
        (some c2Regrown)).state.lastSize = 100 := by
  decide

/-- Claim C2 (amended): a change event whose observed size does not exceed
lastOffset is ignored entirely — no reset of lastOffset or headers, no reads,
no emissions; content below the stale offset is only reachable again once the
file grows past it. -/
theorem c2_shrink_ignored (st : WatchState) (content : List Char)
    (h : content.length ≤ st.lastSize) :
    watchStep st .change (some content) = ⟨[], st, none⟩ := by
  rw [watchStep, if_neg (Nat.not_lt.2 h)]

/-- Claim C2 witness: the amended behaviour at the concrete shrink input. -/
theorem c2_shrink_ignored_witness :
    c2Shrunk.length ≤ c2St.lastSize ∧
    watchStep c2St .change (some c2Shrunk) = ⟨[], c2St, none⟩ :=
  ⟨by decide, c2_shrink_ignored c2St c2Shrunk (by decide)⟩

/-- Claim C3 counterexample: watching an empty file and appending the header
plus one row emits two rows (the header line is re-parsed as a data row by the
chunk read that starts at offset 0), and lastSize becomes 14, not 13. -/
theorem c3_counterexample :
    (watchStep (initState []) .change (some hdrAnnContent)).outs.length = 2 ∧
    ¬(watchStep (initState []) .change (some hdrAnnContent)).state.lastSize = 13 := by
  decide

/-- Claim C3 (amended): on the empty-file scenario the session resolves the
header id,name, emits the header record itself as a data row followed by the
row 1,Ann, and leaves lastOffset at 14 (the full appended byte count). -/
theorem c3_amended_behavior :
    watchStep (initState []) .change (some hdrAnnContent) =
      ⟨[Emit.tableRow idNameHeaders idNameHeaders,
        Emit.tableRow idNameHeaders [['1'], ['A', 'n', 'n']]],
       ⟨14, idNameHeaders⟩, none⟩ := by
  decide

/-- Claim C4: lastOffset never decreases across callback invocations, and on
a growth transition whose chunk parses cleanly the new lastOffset is exactly
the current size, equal to the old offset plus the raw bytes of the emitted
records (field bytes and comma separators) plus their newline terminators —
with no unconsumed fragment left behind. -/
theorem c4_offset_accounting :
    (∀ st ev f, st.lastSize ≤ (watchStep st ev f).state.lastSize) ∧
    (∀ st content, st.lastSize < content.length →
      (parseStream (content.drop st.lastSize)).2 = false →
      (watchStep st .change (some content)).state.lastSize = content.length ∧
      st.lastSize + emittedBytes (watchStep st .change (some content)).outs +
          (content.drop st.lastSize).count '\n' = content.length) := by
  refine ⟨watchStep_mono, ?_⟩
  intro st content hg hclean
  rw [watchStep, if_pos hg]
  simp only [processGrowth, hclean, Bool.false_eq_true, if_false]
  refine ⟨trivial, ?_⟩
  rw [emittedBytes_map, parseStream_clean _ hclean, List.map_map]
  simp only [Function.comp_def, parseFields_rawBytes]
  have h1 : (List.map (fun x : List Char => x.length)
        (recordLines (content.drop st.lastSize))).sum +
      (content.drop st.lastSize).count '
' =
      (content.drop st.lastSize).length :=
    recordLines_sum (content.drop st.lastSize)
  have h2 : (content.drop st.lastSize).length = content.length - st.lastSize :=
    List.length_drop st.lastSize content
  omega

/-- Claim C4 witness: the accounting at a concrete growth transition. -/
theorem c4_offset_accounting_witness :
    (watchStep c4St .change (some hdrAnnContent)).state.lastSize =
        hdrAnnContent.length ∧
    c4St.lastSize + emittedBytes (watchStep c4St .change (some hdrAnnContent)).outs +
        (hdrAnnContent.drop c4St.lastSize).count '\n' = hdrAnnContent.length :=
  c4_offset_accounting.2 c4St hdrAnnContent (by decide) (by decide)

/-- Claim C5 counterexample: a change event arriving after the file was
deleted produces no sink notification at all (the statSync exception escapes
the async callback uncaught), the state is unchanged rather than terminal,
and a change event for a recreated file is processed normally without any
restart. -/
theorem c5_counterexample :
    (watchStep c5St .change none).outs = [] ∧
    (watchStep c5St .change none).state = c5St ∧
    (watchStep c5St .change none).crash = some Crash.statThrow ∧
    (watchStep c5St .rename none).outs = [] ∧
    (watchStep c5St .change (some c5Recreated)).outs =
        [Emit.infoLine [['5', '6', '7', '8', '9']]] := by
  decide

/-- Claim C5 (amended): deletion is not handled — rename events (how fs.watch
reports a deletion) are ignored, and a change event with the file absent makes
statSync throw uncaught out of the callback with nothing reported to the sink;
the session has no terminal state and keeps processing any events that are
still delivered. -/
theorem c5_removal_uncaught (st : WatchState) (f : Option (List Char)) :
    watchStep st .rename f = ⟨[], st, none⟩ ∧
    watchStep st .change none = ⟨[], st, some Crash.statThrow⟩ :=
  ⟨rfl, rfl⟩

/-- Claim C6 counterexample: a chunk whose second record has a different
field count (2,Bob,X then 1,Y after the two-field header chunk) makes the
parse throw uncaught: the offset stays at 14 instead of advancing past the
bad record, and no onError-style notification exists — only the records
before the bad one were printed. -/
theorem c6_counterexample :
    (watchStep c6St .change (some c6Content)).crash = some Crash.parseThrow ∧
    (watchStep c6St .change (some c6Content)).state.lastSize = 14 ∧
    (watchStep c6St .change (some c6Content)).outs =
        [Emit.tableRow idNameHeaders [['2'], ['B', 'o', 'b'], ['X']]] := by
  decide

/-- Claim C6 (amended): whenever the chunk read on a growth event fails to
parse, the csv-parse error escapes the async callback uncaught (no sink
notification), and lastOffset does not advance at all — the session will
re-read the same bytes on the next growth event rather than skipping the bad
record. -/
theorem c6_malformed_uncaught (st : WatchState) (content : List Char)
    (hg : st.lastSize < content.length)
    (herr : (parseStream (content.drop st.lastSize)).2 = true) :
    (watchStep st .change (some content)).crash = some Crash.parseThrow ∧
    (watchStep st .change (some content)).state.lastSize = st.lastSize := by
  rw [watchStep, if_pos hg]
  simp [processGrowth, herr]

/-- Claim C6 witness: the amended behaviour at the concrete malformed
append. -/
theorem c6_malformed_uncaught_witness :
    c6St.lastSize < c6Content.length ∧
    (watchStep c6St .change (some c6Content)).crash = some Crash.parseThrow ∧
    (watchStep c6St .change (some c6Content)).state.lastSize = c6St.lastSize :=
  ⟨by decide,
   (c6_malformed_uncaught c6St c6Content (by decide) (by decide)).1,
   (c6_malformed_uncaught c6St c6Content (by decide) (by decide)).2⟩

/-- Claim C7: a change notification whose re-statted size equals the
session's lastOffset is a no-op — nothing is read, nothing is emitted, and
the state is unchanged. -/
theorem c7_idempotent (st : WatchState) (content : List Char)
    (h : content.length = st.lastSize) :
    watchStep st .change (some content) = ⟨[], st, none⟩ := by
  rw [watchStep, if_neg (by omega)]

/-- Claim C7 witness: the no-op at a concrete duplicate notification. -/
theorem c7_idempotent_witness :
    c7Content.length = c7St.lastSize ∧
    watchStep c7St .change (some c7Content) = ⟨[], c7St, none⟩ :=
  ⟨by decide, c7_idempotent c7St c7Content (by decide)⟩

/-- Claim C8: headers change only for a session that is headerless at offset
0, the resolved headers are nonempty (so resolution happens at most once),
and a watch started on nonempty pre-existing content stays headerless forever
and prints every record positionally. -/
theorem c8_header_once :
    (∀ st ev f, (watchStep st ev f).state.headers ≠ st.headers →
        (st.headers = [] ∧ st.lastSize = 0) ∧
        (watchStep st ev f).state.headers ≠ []) ∧
    (∀ (c : List Char) evs, 0 < c.length →
        (runWatch (initState c) evs).state.headers = [] ∧
        (runWatch (initState c) evs).outs.all isPositional = true) := by
  refine ⟨watchStep_headers_change, ?_⟩
  intro c evs hc
  exact runWatch_headerless evs (initState c) rfl hc

/-- Claim C8 witness: a concrete resolution step at offset 0 and a concrete
headerless run over pre-existing content. -/
theorem c8_header_once_witness :
    (((⟨0, []⟩ : WatchState).headers = [] ∧ (⟨0, []⟩ : WatchState).lastSize = 0) ∧
      (watchStep ⟨0, []⟩ .change (some c8Hdr)).state.headers ≠ []) ∧
    ((runWatch (initState preC) c8Evs).state.headers = [] ∧
      (runWatch (initState preC) c8Evs).outs.all isPositional = true) :=
  ⟨c8_header_once.1 ⟨0, []⟩ .change (some c8Hdr) (by decide),
   c8_header_once.2 preC c8Evs (by decide)⟩

/-- Claim C9: the session starts with lastOffset equal to the file's size at
start time, and runs over event sequences that differ only in the
pre-existing bytes are indistinguishable — pre-existing content is never read
or emitted. -/
theorem c9_watch_from_eof (c : List Char)
    (evs₁ evs₂ : List (FsEvent × Option (List Char)))
    (h : evsAgreeAbove c.length evs₁ evs₂ = true) :
    (initState c).lastSize = c.length ∧
    runWatch (initState c) evs₁ = runWatch (initState c) evs₂ :=
  ⟨rfl, runWatch_eq_of_agree c.length evs₁ evs₂ (initState c) (le_refl _) h⟩

/-- Claim C9 witness: two concrete event sequences whose snapshots differ
only in the three pre-existing bytes produce identical runs. -/
theorem c9_watch_from_eof_witness :
    evsAgreeAbove preC.length c9Evs₁ c9Evs₂ = true ∧
    ((initState preC).lastSize = preC.length ∧
      runWatch (initState preC) c9Evs₁ = runWatch (initState preC) c9Evs₂) :=
  ⟨by decide, c9_watch_from_eof preC c9Evs₁ c9Evs₂ (by decide)⟩

/-- Claim C10: a record is kept by the search exactly when some field value,
lowercased, contains the lowercased term as a contiguous substring, and when
nothing matches no table is rendered. -/
theorem c10_search_members :
    (∀ (rows : List SearchRow) (term : List Char) (r : SearchRow),
        r ∈ searchResults rows term ↔
          r ∈ rows ∧ ∃ v ∈ rowValues r,
            ∃ p q, p ++ lowerStr term ++ q = lowerStr v) ∧
    (∀ (rows : List SearchRow) (term : List Char),
        searchResults rows term = [] → renderTable rows term = none) := by
  constructor
  · intro rows term r
    simp only [searchResults, List.mem_filter, matchesRow, List.any_eq_true,
      containsSub_iff]
  · intro rows term h
    rw [renderTable, h]

/-- Claim C10 witness: the row with value Ann matches the term An, and an
empty row set renders no table. -/
theorem c10_search_members_witness :
    c10Row ∈ searchResults [c10Row] c10Term ∧ renderTable [] c10Term = none :=
  ⟨(c10_search_members.1 [c10Row] c10Term c10Row).mpr
      ⟨by decide, ['A', 'n', 'n'], by decide, [], ['n'], by decide⟩,
   c10_search_members.2 [] c10Term (by decide)⟩

end CsvUtil
